import Mathlib

/-!
Verification development for the `aires` research-paper backend.

The definitions below are a shallow embedding of the Python source under
`backend/`:

* `backend/openalex_search.py` — `get_reference_papers_content`,
  `get_chatgpt_analysis` (the hierarchical reference search pipeline);
* `backend/chatgpt.py` — `generate_section` (LLM call plus humanizing
  fallback);
* `backend/main.py` — the paper endpoints `start_paper_generation`,
  `generate_next_section`, `generate_section_content`, `edit_abstract`,
  `edit_section`, `confirm_section`, `confirm_abstract`, modelled as state
  transformers on a `PaperState` record mirroring the ORM row.

External collaborators (the OpenAlex HTTP search, the OpenAI completion
call, the humanizer call) are modelled as an environment `Env` of fallible
functions (`Except Unit` models a Python exception); JSON dictionaries are
modelled as association lists, Python strings as Lean `String` (or
`List Char` where substring reasoning is needed).
-/

namespace Aires

/-! ### String utilities

Python substring membership (`sub in s`) on the character-list model of
strings: `startsWithL sub s` is "`sub` is a leading block of `s`" and
`hasSub sub s` is "`sub` occurs contiguously somewhere in `s`". -/

def startsWithL : List Char → List Char → Bool
  | [], _ => true
  | _ :: _, [] => false
  | a :: as, b :: bs => a == b && startsWithL as bs

def hasSub : List Char → List Char → Bool
  | sub, [] => sub.isEmpty
  | sub, c :: t => startsWithL sub (c :: t) || hasSub sub t

/-! ### Association-list model of a Python `dict` (insertion-ordered).

`recSet` is `d[k] = v` (update in place when the key exists, append
otherwise); `recGet` is `d.get(k)`. -/

def recGet (m : List (String × String)) (k : String) : Option String :=
  match m with
  | [] => none
  | (k', v) :: rest => if k' = k then some v else recGet rest k

def recSet (m : List (String × String)) (k : String) (v : String) :
    List (String × String) :=
  match m with
  | [] => [(k, v)]
  | (k', v') :: rest =>
    if k' = k then (k', v) :: rest else (k', v') :: recSet rest k v

/-! ### Data model of one search hit (`get_paper_details`) -/

/-- The normalized reference paper produced by
`OpenAlexSearch.get_paper_details`: title, abstract, DOI (resolver prefix
already stripped), publication year (kept as its rendered text), author
display names, concept keywords, citation count and landing-page URL. -/
structure PaperDetails where
  title : String
  abstract : String
  doi : String
  publicationYear : String
  authors : List String
  keywords : List String
  citations : Nat
  url : String
deriving DecidableEq

/-- One raw OpenAlex work record, as far as the pipeline inspects it:
`pid` is `work.get("id")` (`none` models a missing/null id, `some ""` a
falsy empty one), and `details` is the outcome of `get_paper_details` on
the record — `none` models the call raising on a malformed record. -/
structure RawWork where
  pid : Option String
  details : Option PaperDetails
deriving DecidableEq

/-- The external collaborators: `search` is one `search_works` call keyed
by the query string, `llm` is one chat-completion call keyed by the prompt,
`humanize` is one humanizer call keyed by the input text.  An `Except.error`
models the Python call raising an exception. -/
structure Env where
  search : String → Except Unit (List RawWork)
  llm : String → Except Unit String
  humanize : String → Except Unit String

/-! ### The hierarchical reference search
(`OpenAlexSearch.get_reference_papers_content`) -/

def targetPaperCount : Nat := 40

/-- One iteration of the per-paper loop body: skip once the target count is
reached, skip works with a falsy or already-seen id, skip works whose
detail extraction raises; otherwise append the details and record the id. -/
def workStep (st : List PaperDetails × List String) (w : RawWork) :
    List PaperDetails × List String :=
  if targetPaperCount ≤ st.1.length then st
  else
    match w.pid with
    | none => st
    | some p =>
      if p ≠ "" ∧ p ∉ st.2 then
        match w.details with
        | some d => (st.1 ++ [d], st.2 ++ [p])
        | none => st
      else st

/-- Processing of one page of results (`for paper in results: ...`). -/
def processWorks (st : List PaperDetails × List String)
    (ws : List RawWork) : List PaperDetails × List String :=
  ws.foldl workStep st

/-- In-flight state of the search: accumulated candidate details, the
`seen_paper_ids` set (in insertion order), the queries issued so far
(specification instrumentation), and whether a query has raised — a raise
propagates to the outer `except` of `get_reference_papers_content`, so
once `failed` is set nothing further runs. -/
structure SState where
  processed : List PaperDetails
  seen : List String
  qtrace : List String
  failed : Bool
deriving DecidableEq

/-- Issue one `search_works` query and absorb its page of results; a raise
inside the query marks the whole run failed. -/
def searchStep (env : Env) (st : SState) (q : String) : SState :=
  match env.search q with
  | Except.error _ => { st with failed := true, qtrace := st.qtrace ++ [q] }
  | Except.ok ws =>
    let pr := processWorks (st.processed, st.seen) ws
    { processed := pr.1, seen := pr.2, qtrace := st.qtrace ++ [q],
      failed := st.failed }

/-- The `break` condition guarding every keyword query: the target count is
reached — or an earlier query already raised (exception propagation). -/
def stopCond (st : SState) : Bool :=
  st.failed || decide (targetPaperCount ≤ st.processed.length)

def queryStep (env : Env) (st : SState) (q : String) : SState :=
  if stopCond st then st else searchStep env st q

/-- `itertools.combinations` on a list, in its enumeration order. -/
def combosOf : Nat → List String → List (List String)
  | 0, _ => [[]]
  | _ + 1, [] => []
  | n + 1, x :: xs => (combosOf n xs).map (fun c => x :: c) ++ combosOf (n + 1) xs

/-- `range(len(keywords), 0, -1)`: the keyword-count levels `n, n-1, …, 1`. -/
def levelsList : Nat → List Nat
  | 0 => []
  | n + 1 => (n + 1) :: levelsList n

/-- The conjunctive query built from one keyword combination:
`" AND ".join(f'"{keyword}"' for keyword in combo)`. -/
def comboQuery (combo : List String) : String :=
  String.intercalate " AND " (combo.map (fun k => "\"" ++ k ++ "\""))

/-- One level of the hierarchical search: every combination of `k` keywords,
each guarded by the target-count check. -/
def runLevel (env : Env) (keywords : List String) (st : SState) (k : Nat) :
    SState :=
  (combosOf k keywords).foldl (fun st c => queryStep env st (comboQuery c)) st

/-- The keyword phase: levels from `len(keywords)` down to `1`, each level
guarded by the target-count check before its combinations are generated. -/
def runKeywordSearch (env : Env) (keywords : List String) (st : SState) :
    SState :=
  (levelsList keywords.length).foldl
    (fun st k => if stopCond st then st else runLevel env keywords st k) st

/-- The full search run: the unconditional title query first, then the
keyword levels. -/
def searchRun (env : Env) (keywords : List String) (title : String) : SState :=
  runKeywordSearch env keywords
    (searchStep env ⟨[], [], [], false⟩ title)

/-- The flattened deterministic plan of keyword queries, annotated with the
combination each query came from and its level. -/
def comboPlan (keywords : List String) : List (Nat × List String) :=
  ((levelsList keywords.length).map
    (fun k => (combosOf k keywords).map (fun c => (k, c)))).flatten

/-- The deterministic keyword-query order the source would issue absent any
early stop. -/
def keywordQueries (keywords : List String) : List String :=
  ((levelsList keywords.length).map
    (fun k => (combosOf k keywords).map comboQuery)).flatten

/-! ### Reference analysis (`get_chatgpt_analysis`) -/

/-- One paper block of the `papers_text` prompt fragment. -/
def paperBlock (p : PaperDetails) : String :=
  "Title: " ++ p.title ++ "\n" ++
  "Authors: " ++ String.intercalate ", " p.authors ++ "\n" ++
  "Year: " ++ p.publicationYear ++ "\n" ++
  "Abstract: " ++ p.abstract ++ "\n" ++
  "Keywords: " ++ String.intercalate ", " p.keywords ++ "\n" ++
  "Citations: " ++ toString p.citations ++ "\n" ++
  "DOI: " ++ p.doi

def papersText (papers : List PaperDetails) : String :=
  String.intercalate "\n\n" (papers.map paperBlock)

/-- The analysis prompt (the fixed instruction text of the source prompt is
carried verbatim only in its opening; the remainder is constant text that
no modelled behavior inspects). -/
def analysisPrompt (papers : List PaperDetails) (title sec : String) : String :=
  "I am writing a research paper with the title: \"" ++ title ++ "\"\n\n" ++
  "I need help with the " ++ sec ++
  " section. Here are some relevant papers I found:\n\n" ++
  papersText papers ++
  "\n\nPlease analyze these papers and provide a summary of the key" ++
  " findings and trends, relations to the topic, gaps, and key citations."

/-- `get_chatgpt_analysis`: one completion call; its output is passed
through the humanizer, whose failure is caught and falls back to the
pre-rewrite text; a completion failure is caught and yields the fixed
error string.  The function never raises. -/
def getChatgptAnalysis (env : Env) (papers : List PaperDetails)
    (title sec : String) : String :=
  match env.llm (analysisPrompt papers title sec) with
  | Except.error _ => "Error getting analysis from ChatGPT"
  | Except.ok resp =>
    match env.humanize resp with
    | Except.error _ => resp
    | Except.ok h => h

/-- Result bundle of `get_reference_papers_content`.  `sourceIds` and
`queryLog` are specification instrumentation: `sourceIds` is the
`seen_paper_ids` set in insertion order (the id of the raw work each
returned candidate was extracted from), `queryLog` the queries issued, and
`aborted` records whether the outer exception handler fired. -/
structure RefSearchResult where
  papers : List PaperDetails
  analysis : Option String
  sourceIds : List String
  queryLog : List String
  aborted : Bool
deriving DecidableEq

/-- `get_reference_papers_content`: run the hierarchical search; any raise
lands in the outer handler, which returns the empty list with a null
analysis; otherwise bundle the candidates with the analysis text. -/
def getReferencePapersContent (env : Env) (keywords : List String)
    (title sec : String) : RefSearchResult :=
  let st := searchRun env keywords title
  if st.failed then
    { papers := [], analysis := none, sourceIds := [],
      queryLog := st.qtrace, aborted := true }
  else
    { papers := st.processed,
      analysis := some (getChatgptAnalysis env st.processed title sec),
      sourceIds := st.seen, queryLog := st.qtrace, aborted := false }

/-! ### Section generation (`chatgpt.generate_section`) -/

/-- `generate_section`: one completion call on the assembled section prompt
(the prompt is taken as a parameter; its assembly by `get_section_prompt`
is constant text the modelled behavior does not inspect).  The output is
passed through the humanizer; a humanizer failure is caught and the
pre-rewrite content returned; a completion failure propagates. -/
def generateSectionText (env : Env) (sectionPrompt : String) :
    Except Unit String :=
  match env.llm sectionPrompt with
  | Except.error e => Except.error e
  | Except.ok content =>
    Except.ok
      (match env.humanize content with
       | Except.error _ => content
       | Except.ok h => h)

/-! ### The cumulative references block (`generate_section_content`) -/

/-- The citation line built for one reference paper:
`f"{', '.join(authors)} ({year}). {title}. "` plus `"DOI: {doi}"` when the
DOI is non-empty. -/
def citationOf (p : PaperDetails) : String :=
  String.intercalate ", " p.authors ++ " (" ++ p.publicationYear ++ "). " ++
    p.title ++ ". " ++ (if p.doi = "" then "" else "DOI: " ++ p.doi)

def citationChars (p : PaperDetails) : List Char :=
  (citationOf p).toList

/-- The two newlines appended after each citation line. -/
def nl2 : List Char := ['\n', '\n']

/-- The initial `"\n\n## References\n\n"` block. -/
def refsHeader : String := "\n\n## References\n\n"

/-- One iteration of the references loop: append the citation (plus two
newlines) unless an identical line is already a substring of the block. -/
def refStep (r : List Char) (p : PaperDetails) : List Char :=
  if hasSub (citationChars p) r then r else r ++ citationChars p ++ nl2

/-- The full references update of one `generate-section` call. -/
def updateReferences (r : List Char) (papers : List PaperDetails) :
    List Char :=
  papers.foldl refStep r

/-- Instrumented references update: also collects the citation lines that
were actually appended, in order. -/
def refStepA (s : List Char × List (List Char)) (p : PaperDetails) :
    List Char × List (List Char) :=
  if hasSub (citationChars p) s.1 then s
  else (s.1 ++ citationChars p ++ nl2, s.2 ++ [citationChars p])

def updateReferencesA (s : List Char × List (List Char))
    (papers : List PaperDetails) : List Char × List (List Char) :=
  papers.foldl refStepA s

/-! ### The paper state machine (`main.py` endpoints) -/

/-- One `EditHistoryItem` appended by the edit endpoints. -/
structure EditEvent where
  timestamp : String
  instructions : String
  previousContent : String
  newContent : String
deriving DecidableEq

/-- The fields of the `ResearchPaper` row that the modelled transitions
read or write (the remaining metadata columns — topic, keywords, length,
etc. — are never touched by them and are omitted).  `sectionContent` is the
JSON `section_content` dictionary, `confirmedSections` the JSON
`confirmed_sections` array (its SQL `NULL` and `[]` are identified, as the
source normalizes with `or []`). -/
structure PaperState where
  requiredSections : List String
  customSections : List String
  currentSection : Option String
  sectionContent : List (String × String)
  confirmedSections : List String
  editHistory : List EditEvent
  generationStatus : String
deriving DecidableEq

/-- `start_paper_generation`: requires at least one section; the first
required section if any exist, else the first custom section, becomes
`current_section`; the abstract is eagerly generated (its text is the
`abstractContent` parameter) exactly when that first section is
`"abstract"`.  `none` models the `ValueError` raised when no section was
selected. -/
def startPaper (required custom : List String) (abstractContent : String) :
    Option PaperState :=
  match required, custom with
  | [], [] => none
  | f :: r, c =>
    some { requiredSections := f :: r, customSections := c,
           currentSection := some f,
           sectionContent :=
             if f = "abstract" then [("abstract", abstractContent)] else [],
           confirmedSections := [], editHistory := [],
           generationStatus := "in_progress" }
  | [], f :: c =>
    some { requiredSections := [], customSections := f :: c,
           currentSection := some f,
           sectionContent :=
             if f = "abstract" then [("abstract", abstractContent)] else [],
           confirmedSections := [], editHistory := [],
           generationStatus := "in_progress" }

/-- Observable outcome of `generate_next_section`: either the paper was
marked completed, or a section was generated together with the preview
pointer to the section after it. -/
inductive GenNextOutcome where
  | completed
  | generated (sec content : String) (nextPreview : Option String)
deriving DecidableEq

/-- `generate_next_section`: take the concatenation of required then custom
sections; the index of `current_section` in it, `-1` when absent; the
guard `if not next_section:` sets status completed both when no entry
follows and when the next entry is the falsy empty string `""`; otherwise
generate the next section (its text given by `contentFor`), store it and
advance `current_section`. -/
def generateNext (st : PaperState) (contentFor : String → String) :
    PaperState × GenNextOutcome :=
  let allSections := st.requiredSections ++ st.customSections
  let nextIdx : Nat :=
    match st.currentSection with
    | some c => if c ∈ allSections then allSections.indexOf c + 1 else 0
    | none => 0
  match allSections[nextIdx]? with
  | none => ({ st with generationStatus := "completed" },
             GenNextOutcome.completed)
  | some next =>
    if next = "" then
      ({ st with generationStatus := "completed" }, GenNextOutcome.completed)
    else
      ({ st with
          sectionContent := recSet st.sectionContent next (contentFor next),
          currentSection := some next },
        GenNextOutcome.generated next (contentFor next)
          allSections[nextIdx + 1]?)

/-- `generate_section_content` (the `generate-section` endpoint) restricted
to its state update: store the generated text under the requested section
name, initialize the `"references"` entry when absent, fold the reference
papers into the references block when any were found, and point
`current_section` at the requested section.  `papers` is the candidate
list the search returned and `content` the generated section text. -/
def generateSectionContent (st : PaperState) (sec : String)
    (papers : List PaperDetails) (content : String) : PaperState :=
  let c1 := recSet st.sectionContent sec content
  let c2 :=
    if recGet c1 "references" = none then recSet c1 "references" refsHeader
    else c1
  let c3 :=
    if papers = [] then c2
    else
      let refs := ((recGet c2 "references").getD refsHeader).toList
      recSet c2 "references" (String.mk (updateReferences refs papers))
  { st with sectionContent := c3, currentSection := some sec }

/-- `edit_abstract`: the whole `section_content` dictionary is replaced by
the one-entry `{"abstract": edited}` dictionary, and an edit event is
appended. -/
def editAbstract (st : PaperState) (timestamp prevAbstract instructions
    edited : String) : PaperState :=
  { st with
      sectionContent := [("abstract", edited)],
      editHistory :=
        st.editHistory ++ [⟨timestamp, instructions, prevAbstract, edited⟩] }

/-- `edit_section`: the named section entry is overwritten with the edited
text, and an edit event is appended. -/
def editSection (st : PaperState) (timestamp sectionName currentContent
    instructions improved : String) : PaperState :=
  { st with
      sectionContent := recSet st.sectionContent sectionName improved,
      editHistory :=
        st.editHistory ++
          [⟨timestamp, instructions, currentContent, improved⟩] }

/-- `set(a) == set(b)` on Python lists. -/
def sameSet (a b : List String) : Bool :=
  decide ((∀ x ∈ a, x ∈ b) ∧ ∀ x ∈ b, x ∈ a)

/-- `confirm_section`: append the section name unless already present; then
status becomes completed exactly when the confirmed set equals the
required set (as sets), else in_progress. -/
def confirmSection (st : PaperState) (sec : String) : PaperState :=
  let confirmed :=
    if sec ∈ st.confirmedSections then st.confirmedSections
    else st.confirmedSections ++ [sec]
  { st with
      confirmedSections := confirmed,
      generationStatus :=
        if sameSet confirmed st.requiredSections then "completed"
        else "in_progress" }

/-- `confirm_abstract`: unconditionally set the status. -/
def confirmAbstract (st : PaperState) : PaperState :=
  { st with generationStatus := "abstract_confirmed" }

/-! ## Helper lemmas -/

theorem recGet_recSet (m : List (String × String)) (k v k') :
    recGet (recSet m k v) k' = if k' = k then some v else recGet m k' := by
  induction m with
  | nil =>
    by_cases h : k' = k
    · subst h
      simp [recSet, recGet]
    · have h' : ¬k = k' := fun e => h e.symm
      simp [recSet, recGet, h, h']
  | cons hd tl ih =>
    obtain ⟨k₀, v₀⟩ := hd
    by_cases h0 : k₀ = k
    · subst h0
      by_cases h : k₀ = k'
      · subst h
        simp [recSet, recGet]
      · have h' : ¬k' = k₀ := fun e => h e.symm
        simp [recSet, recGet, h, h']
    · by_cases h : k₀ = k'
      · subst h
        have h'' : ¬k = k₀ := fun e => h0 e.symm
        simp [recSet, recGet, h0, h'']
      · have h' : ¬k' = k₀ := fun e => h e.symm
        simp [recSet, recGet, h0, h, h', ih]

theorem recGet_recSet_same (m : List (String × String)) (k v) :
    recGet (recSet m k v) k = some v := by
  simp [recGet_recSet]

theorem recGet_recSet_other (m : List (String × String)) (k v k')
    (h : k' ≠ k) : recGet (recSet m k v) k' = recGet m k' := by
  simp [recGet_recSet, h]

theorem startsWithL_append (sub s t : List Char)
    (h : startsWithL sub s = true) : startsWithL sub (s ++ t) = true := by
  induction sub generalizing s with
  | nil => simp [startsWithL]
  | cons a as ih =>
    cases s with
    | nil => simp [startsWithL] at h
    | cons b bs =>
      simp only [startsWithL, Bool.and_eq_true] at h ⊢
      exact ⟨h.1, ih bs h.2⟩

theorem startsWithL_self (l t : List Char) : startsWithL l (l ++ t) = true := by
  induction l with
  | nil => simp [startsWithL]
  | cons a as ih => simp [startsWithL, ih]

theorem hasSub_nil (t : List Char) : hasSub [] t = true := by
  cases t <;> simp [hasSub, startsWithL, List.isEmpty]

theorem hasSub_append_right (sub s t : List Char)
    (h : hasSub sub s = true) : hasSub sub (s ++ t) = true := by
  induction s with
  | nil =>
    simp [hasSub, List.isEmpty_iff] at h
    subst h
    exact hasSub_nil t
  | cons c s' ih =>
    simp only [hasSub, Bool.or_eq_true] at h
    rcases h with h | h
    · simp only [List.cons_append, hasSub, Bool.or_eq_true]
      exact Or.inl (startsWithL_append sub (c :: s') t h)
    · simp only [List.cons_append, hasSub, Bool.or_eq_true]
      exact Or.inr (ih h)

theorem hasSub_append_left (sub s t : List Char)
    (h : hasSub sub t = true) : hasSub sub (s ++ t) = true := by
  induction s with
  | nil => simpa using h
  | cons c s' ih => simp only [List.cons_append, hasSub, Bool.or_eq_true]; exact Or.inr ih

theorem hasSub_occurs (c r t : List Char) : hasSub c (r ++ c ++ t) = true := by
  have h1 : hasSub c (c ++ t) = true := by
    cases c with
    | nil => exact hasSub_nil _
    | cons a as =>
      simp only [hasSub, Bool.or_eq_true]
      exact Or.inl (by simpa using startsWithL_self (a :: as) t)
  have := hasSub_append_left c r (c ++ t) h1
  simpa [List.append_assoc] using this

theorem refStepA_fst (s : List Char × List (List Char)) (p : PaperDetails) :
    (refStepA s p).1 = refStep s.1 p := by
  by_cases h : hasSub (citationChars p) s.1 = true
  · simp [refStepA, refStep, h]
  · simp [refStepA, refStep, h]

theorem updateReferencesA_fst (papers : List PaperDetails)
    (s : List Char × List (List Char)) :
    (updateReferencesA s papers).1 = updateReferences s.1 papers := by
  induction papers generalizing s with
  | nil => rfl
  | cons p ps ih =>
    show (updateReferencesA (refStepA s p) ps).1 =
      updateReferences (refStep s.1 p) ps
    rw [ih, refStepA_fst]

theorem updateReferencesA_shape (papers : List PaperDetails)
    (r : List Char) (acc : List (List Char)) :
    ∃ new, updateReferencesA (r, acc) papers =
      (r ++ (new.map (fun c => c ++ nl2)).flatten, acc ++ new) := by
  induction papers generalizing r acc with
  | nil => exact ⟨[], by simp [updateReferencesA]⟩
  | cons p ps ih =>
    show ∃ new, updateReferencesA (refStepA (r, acc) p) ps = _
    by_cases h : hasSub (citationChars p) r = true
    · obtain ⟨new, hn⟩ := ih r acc
      exact ⟨new, by simpa [refStepA, h] using hn⟩
    · obtain ⟨new, hn⟩ := ih (r ++ citationChars p ++ nl2) (acc ++ [citationChars p])
      refine ⟨citationChars p :: new, ?_⟩
      rw [show refStepA (r, acc) p =
        (r ++ citationChars p ++ nl2, acc ++ [citationChars p]) by
          simp [refStepA, h]]
      rw [hn]
      simp [List.append_assoc]

theorem updateReferencesA_nodup (papers : List PaperDetails)
    (s : List Char × List (List Char)) (hnd : s.2.Nodup)
    (hmem : ∀ c ∈ s.2, hasSub c s.1 = true) :
    (updateReferencesA s papers).2.Nodup ∧
      ∀ c ∈ (updateReferencesA s papers).2,
        hasSub c (updateReferencesA s papers).1 = true := by
  induction papers generalizing s with
  | nil => exact ⟨hnd, hmem⟩
  | cons p ps ih =>
    have hstep : updateReferencesA s (p :: ps) =
        updateReferencesA (refStepA s p) ps := rfl
    rw [hstep]
    by_cases h : hasSub (citationChars p) s.1 = true
    · rw [show refStepA s p = s by simp [refStepA, h]]
      exact ih s hnd hmem
    · rw [show refStepA s p =
        (s.1 ++ citationChars p ++ nl2, s.2 ++ [citationChars p]) by
          simp [refStepA, h]]
      apply ih
      · have hnotin : citationChars p ∉ s.2 := fun hin => h (hmem _ hin)
        simp [List.nodup_append, hnd, List.Disjoint]
        intro a ha hac
        subst hac
        exact hnotin ha
      · intro c hc
        simp only [List.mem_append, List.mem_singleton] at hc
        rcases hc with hc | hc
        · have := hmem c hc
          calc hasSub c (s.1 ++ citationChars p ++ nl2)
              = hasSub c (s.1 ++ (citationChars p ++ nl2)) := by
                rw [List.append_assoc]
            _ = true := hasSub_append_right c s.1 _ this
        · subst hc
          exact hasSub_occurs _ s.1 nl2

theorem updateReferences_append (r : List Char) (ps₁ ps₂ : List PaperDetails) :
    updateReferences (updateReferences r ps₁) ps₂ =
      updateReferences r (ps₁ ++ ps₂) :=
  (List.foldl_append refStep r ps₁ ps₂).symm

theorem foldl_preserve {α β : Type} (P : β → Prop) (f : β → α → β)
    (hf : ∀ b a, P b → P (f b a)) :
    ∀ (l : List α) (b : β), P b → P (List.foldl f b l) := by
  intro l
  induction l with
  | nil => intro b hb; exact hb
  | cons a l ih => intro b hb; exact ih (f b a) (hf b a hb)

theorem workStep_inv (st : List PaperDetails × List String) (w : RawWork)
    (h1 : st.1.length ≤ targetPaperCount) (h2 : st.2.Nodup)
    (h3 : st.1.length = st.2.length) :
    (workStep st w).1.length ≤ targetPaperCount ∧
      (workStep st w).2.Nodup ∧
      (workStep st w).1.length = (workStep st w).2.length := by
  obtain ⟨pid, det⟩ := w
  by_cases hfull : targetPaperCount ≤ st.1.length
  · simp only [workStep, hfull, if_true, ite_true]
    exact ⟨h1, h2, h3⟩
  · cases pid with
    | none =>
      simp only [workStep, hfull, if_false, ite_false]
      exact ⟨h1, h2, h3⟩
    | some p =>
      by_cases hcond : p ≠ "" ∧ p ∉ st.2
      · cases det with
        | none =>
          simp only [workStep]
          rw [if_neg hfull, if_pos hcond]
          exact ⟨h1, h2, h3⟩
        | some d =>
          have hlen : st.1.length + 1 ≤ targetPaperCount :=
            Nat.lt_of_not_le hfull
          have hnd : (st.2 ++ [p]).Nodup := by
            simp [List.nodup_append, h2, List.Disjoint]
            intro a ha hap
            subst hap
            exact hcond.2 ha
          simp only [workStep]
          rw [if_neg hfull, if_pos hcond]
          exact ⟨by simpa using hlen, hnd, by simp [h3]⟩
      · simp only [workStep]
        rw [if_neg hfull, if_neg hcond]
        exact ⟨h1, h2, h3⟩

theorem processWorks_inv (ws : List RawWork)
    (st : List PaperDetails × List String)
    (h1 : st.1.length ≤ targetPaperCount) (h2 : st.2.Nodup)
    (h3 : st.1.length = st.2.length) :
    (processWorks st ws).1.length ≤ targetPaperCount ∧
      (processWorks st ws).2.Nodup ∧
      (processWorks st ws).1.length = (processWorks st ws).2.length := by
  refine foldl_preserve
    (fun s => s.1.length ≤ targetPaperCount ∧ s.2.Nodup ∧
      s.1.length = s.2.length)
    workStep ?_ ws st ⟨h1, h2, h3⟩
  intro b a hb
  exact workStep_inv b a hb.1 hb.2.1 hb.2.2

theorem searchStep_inv (env : Env) (st : SState) (q : String)
    (h1 : st.processed.length ≤ targetPaperCount) (h2 : st.seen.Nodup)
    (h3 : st.processed.length = st.seen.length) :
    (searchStep env st q).processed.length ≤ targetPaperCount ∧
      (searchStep env st q).seen.Nodup ∧
      (searchStep env st q).processed.length =
        (searchStep env st q).seen.length := by
  unfold searchStep
  cases env.search q with
  | error e => simpa using ⟨h1, h2, h3⟩
  | ok ws => simpa using processWorks_inv ws (st.processed, st.seen) h1 h2 h3

theorem queryStep_inv (env : Env) (st : SState) (q : String)
    (h1 : st.processed.length ≤ targetPaperCount) (h2 : st.seen.Nodup)
    (h3 : st.processed.length = st.seen.length) :
    (queryStep env st q).processed.length ≤ targetPaperCount ∧
      (queryStep env st q).seen.Nodup ∧
      (queryStep env st q).processed.length =
        (queryStep env st q).seen.length := by
  unfold queryStep
  by_cases h : stopCond st = true
  · simpa [h] using ⟨h1, h2, h3⟩
  · simpa [h] using searchStep_inv env st q h1 h2 h3

theorem searchRun_inv (env : Env) (keywords : List String) (title : String) :
    (searchRun env keywords title).processed.length ≤ targetPaperCount ∧
      (searchRun env keywords title).seen.Nodup ∧
      (searchRun env keywords title).processed.length =
        (searchRun env keywords title).seen.length := by
  have base := searchStep_inv env ⟨[], [], [], false⟩ title
    (by simp) (by simp) (by simp)
  refine foldl_preserve
    (fun s => s.processed.length ≤ targetPaperCount ∧ s.seen.Nodup ∧
      s.processed.length = s.seen.length)
    (fun st k => if stopCond st then st else runLevel env keywords st k) ?_
    (levelsList keywords.length) _ ⟨base.1, base.2.1, base.2.2⟩
  intro b k hb
  by_cases h : stopCond b = true
  · simpa [h] using hb
  · simp only [h, if_false, Bool.false_eq_true]
    refine foldl_preserve
      (fun s => s.processed.length ≤ targetPaperCount ∧ s.seen.Nodup ∧
        s.processed.length = s.seen.length)
      (fun st c => queryStep env st (comboQuery c)) ?_
      (combosOf k keywords) b hb
    intro b' c hb'
    exact queryStep_inv env b' (comboQuery c) hb'.1 hb'.2.1 hb'.2.2

theorem searchStep_qtrace (env : Env) (st : SState) (q : String) :
    (searchStep env st q).qtrace = st.qtrace ++ [q] := by
  unfold searchStep
  cases env.search q <;> simp

theorem foldl_queryStep_stopped (env : Env) (qs : List String) (st : SState)
    (h : stopCond st = true) :
    List.foldl (queryStep env) st qs = st := by
  induction qs with
  | nil => rfl
  | cons q qs ih =>
    rw [List.foldl_cons, show queryStep env st q = st by simp [queryStep, h]]
    exact ih

theorem runLevel_eq_foldl (env : Env) (keywords : List String) (st : SState)
    (k : Nat) :
    runLevel env keywords st k =
      List.foldl (queryStep env) st ((combosOf k keywords).map comboQuery) := by
  rw [List.foldl_map]
  rfl

theorem runLevels_flatten (env : Env) (keywords : List String)
    (L : List Nat) :
    ∀ st : SState,
      List.foldl
        (fun st k => if stopCond st then st else runLevel env keywords st k)
        st L =
      List.foldl (queryStep env) st
        ((L.map (fun k => (combosOf k keywords).map comboQuery)).flatten) := by
  induction L with
  | nil => intro st; rfl
  | cons k L ih =>
    intro st
    simp only [List.foldl_cons, List.map_cons, List.flatten_cons,
      List.foldl_append]
    by_cases h : stopCond st = true
    · rw [if_pos h, foldl_queryStep_stopped env _ st h]
      exact ih st
    · rw [if_neg h, runLevel_eq_foldl]
      exact ih _

theorem runKeywordSearch_eq (env : Env) (keywords : List String)
    (st : SState) :
    runKeywordSearch env keywords st =
      List.foldl (queryStep env) st (keywordQueries keywords) :=
  runLevels_flatten env keywords (levelsList keywords.length) st

theorem pairwise_of_forall {α : Type} {r : α → α → Prop}
    (h : ∀ a b, r a b) : ∀ l : List α, l.Pairwise r := by
  intro l
  induction l with
  | nil => exact List.Pairwise.nil
  | cons a l ih => exact List.Pairwise.cons (fun b _ => h a b) ih

theorem combosOf_length :
    ∀ (l : List String) (n : Nat) (c : List String),
      c ∈ combosOf n l → c.length = n := by
  intro l
  induction l with
  | nil =>
    intro n c h
    cases n with
    | zero => simp [combosOf] at h; simp [h]
    | succ n => simp [combosOf] at h
  | cons x xs ih =>
    intro n c h
    cases n with
    | zero => simp [combosOf] at h; simp [h]
    | succ n =>
      simp only [combosOf, List.mem_append, List.mem_map] at h
      rcases h with ⟨c', hc', rfl⟩ | h
      · simp [ih n c' hc']
      · exact ih (n + 1) c h

theorem combosOf_sublist :
    ∀ (l : List String) (n : Nat) (c : List String),
      c ∈ combosOf n l → c.Sublist l := by
  intro l
  induction l with
  | nil =>
    intro n c h
    cases n with
    | zero => simp [combosOf] at h; simp [h]
    | succ n => simp [combosOf] at h
  | cons x xs ih =>
    intro n c h
    cases n with
    | zero =>
      simp [combosOf] at h
      simp [h]
    | succ n =>
      simp only [combosOf, List.mem_append, List.mem_map] at h
      rcases h with ⟨c', hc', rfl⟩ | h
      · exact List.Sublist.cons₂ x (ih n c' hc')
      · exact List.Sublist.cons x (ih (n + 1) c h)

theorem levelsList_le : ∀ (n k : Nat), k ∈ levelsList n → k ≤ n := by
  intro n
  induction n with
  | zero => intro k h; simp [levelsList] at h
  | succ n ih =>
    intro k h
    simp only [levelsList, List.mem_cons] at h
    rcases h with rfl | h
    · exact Nat.le_refl _
    · exact Nat.le_trans (ih k h) (Nat.le_succ n)

theorem levelsList_pairwise (n : Nat) :
    (levelsList n).Pairwise (fun a b => b < a) := by
  induction n with
  | zero => exact List.Pairwise.nil
  | succ n ih =>
    refine List.Pairwise.cons ?_ ih
    intro k hk
    exact Nat.lt_succ_of_le (levelsList_le n k hk)

theorem comboPlan_fst_pairwise (keywords : List String) :
    (comboPlan keywords).Pairwise (fun p q => q.1 ≤ p.1) := by
  unfold comboPlan
  rw [List.pairwise_flatten]
  constructor
  · intro l hl
    simp only [List.mem_map] at hl
    obtain ⟨k, _, rfl⟩ := hl
    rw [List.pairwise_map]
    exact pairwise_of_forall (fun _ _ => Nat.le_refl k) _
  · rw [List.pairwise_map]
    refine List.Pairwise.imp ?_ (levelsList_pairwise keywords.length)
    intro k1 k2 hlt x hx y hy
    simp only [List.mem_map] at hx hy
    obtain ⟨c1, _, rfl⟩ := hx
    obtain ⟨c2, _, rfl⟩ := hy
    exact Nat.le_of_lt hlt

theorem comboPlan_mem (keywords : List String) :
    ∀ p ∈ comboPlan keywords, p.2.length = p.1 ∧ p.2.Sublist keywords := by
  intro p hp
  unfold comboPlan at hp
  simp only [List.mem_flatten, List.mem_map] at hp
  obtain ⟨l, ⟨k, _, rfl⟩, hpl⟩ := hp
  simp only [List.mem_map] at hpl
  obtain ⟨c, hc, rfl⟩ := hpl
  exact ⟨combosOf_length keywords k c hc, combosOf_sublist keywords k c hc⟩

theorem keywordQueries_eq_plan (keywords : List String) :
    keywordQueries keywords =
      (comboPlan keywords).map (fun p => comboQuery p.2) := by
  unfold keywordQueries comboPlan
  rw [List.map_flatten, List.map_map]
  congr 1
  apply List.map_congr_left
  intro k _
  rw [Function.comp_apply, List.map_map]
  rfl

theorem foldl_queryStep_qtrace (env : Env) (qs : List String) :
    ∀ st : SState, ∃ t rest,
      (List.foldl (queryStep env) st qs).qtrace = st.qtrace ++ t ∧
        t ++ rest = qs := by
  induction qs with
  | nil => intro st; exact ⟨[], [], by simp, rfl⟩
  | cons q qs ih =>
    intro st
    by_cases h : stopCond st = true
    · exact ⟨[], q :: qs,
        by rw [foldl_queryStep_stopped env _ st h]; simp, rfl⟩
    · have hq : queryStep env st q = searchStep env st q := by
        simp [queryStep, h]
      obtain ⟨t, rest, ht, hrest⟩ := ih (searchStep env st q)
      refine ⟨q :: t, rest, ?_, by simp [hrest]⟩
      rw [List.foldl_cons, hq, ht, searchStep_qtrace]
      simp

/-! ## Claim theorems -/

/-- C6: for all keyword sets, titles and section names, the candidate list
returned by `get_reference_papers_content` contains at most
`target_paper_count` (40) entries, and the source-assigned identifiers of
the raw works the entries were extracted from (`sourceIds`, the
`seen_paper_ids` set in insertion order, one id per returned candidate) are
pairwise distinct. -/
theorem C6_search_budget_and_dedup (env : Env) (keywords : List String)
    (title sec : String) :
    (getReferencePapersContent env keywords title sec).papers.length ≤
        targetPaperCount ∧
      (getReferencePapersContent env keywords title sec).sourceIds.Nodup ∧
      (getReferencePapersContent env keywords title sec).sourceIds.length =
        (getReferencePapersContent env keywords title sec).papers.length := by
  have h := searchRun_inv env keywords title
  unfold getReferencePapersContent
  by_cases hf : (searchRun env keywords title).failed = true
  · simp [hf]
  · simp only [Bool.not_eq_true] at hf
    simp [hf]
    exact ⟨h.1, h.2.1, h.2.2.symm⟩

/-- C7: the query issue order of the search strategy is deterministic and
most-specific-first: the title query is issued first, and the remaining
issued queries form a prefix (cut short only by the target being met or a
failure) of the fixed plan `keywordQueries`, which enumerates, for `k`
from `|K|` down to `1`, every `k`-element combination of the keyword set as
an "AND" of quoted terms — every `k`-element combination strictly precedes
every smaller one (the level sizes along the plan are non-increasing), and
for `K = ["a","b","c"]` the concrete order is the expected one. -/
theorem C7_query_order (env : Env) (keywords : List String) (title : String) :
    (∃ t rest, (searchRun env keywords title).qtrace = title :: t ∧
        t ++ rest = keywordQueries keywords) ∧
      keywordQueries keywords =
        (comboPlan keywords).map (fun p => comboQuery p.2) ∧
      (comboPlan keywords).Pairwise (fun p q => q.1 ≤ p.1) ∧
      (∀ p ∈ comboPlan keywords, p.2.length = p.1 ∧ p.2.Sublist keywords) ∧
      keywordQueries ["a", "b", "c"] =
        ["\"a\" AND \"b\" AND \"c\"", "\"a\" AND \"b\"", "\"a\" AND \"c\"",
         "\"b\" AND \"c\"", "\"a\"", "\"b\"", "\"c\""] := by
  refine ⟨?_, keywordQueries_eq_plan keywords, comboPlan_fst_pairwise keywords,
    comboPlan_mem keywords, by decide⟩
  unfold searchRun
  rw [runKeywordSearch_eq]
  obtain ⟨t, rest, ht, hrest⟩ := foldl_queryStep_qtrace env
    (keywordQueries keywords) (searchStep env ⟨[], [], [], false⟩ title)
  refine ⟨t, rest, ?_, hrest⟩
  rw [ht, searchStep_qtrace]
  simp

/-- C5, counterexample: with one keyword, a title query that returns one
well-formed work and a keyword query that raises a network error, the
pipeline gathers the candidate from the title query — and then the single
failing keyword query aborts the whole search: `get_reference_papers_content`
returns the empty candidate list with a null analysis, discarding the
partial result, contradicting "a single query failure never aborts the
pipeline or discards partial results". -/
theorem C5_counterexample :
    (searchRun
        ⟨fun q => if q = "T"
            then Except.ok [⟨some "id1",
              some ⟨"T1", "abs", "", "2020", ["Au"], [], 0, ""⟩⟩]
            else Except.error (),
          fun _ => Except.ok "resp", fun _ => Except.ok "hum"⟩
        ["k1"] "T").processed =
      [⟨"T1", "abs", "", "2020", ["Au"], [], 0, ""⟩] ∧
    (getReferencePapersContent
        ⟨fun q => if q = "T"
            then Except.ok [⟨some "id1",
              some ⟨"T1", "abs", "", "2020", ["Au"], [], 0, ""⟩⟩]
            else Except.error (),
          fun _ => Except.ok "resp", fun _ => Except.ok "hum"⟩
        ["k1"] "T" "introduction").papers = [] ∧
    (getReferencePapersContent
        ⟨fun q => if q = "T"
            then Except.ok [⟨some "id1",
              some ⟨"T1", "abs", "", "2020", ["Au"], [], 0, ""⟩⟩]
            else Except.error (),
          fun _ => Except.ok "resp", fun _ => Except.ok "hum"⟩
        ["k1"] "T" "introduction").analysis = none := by
  refine ⟨?_, ?_, ?_⟩ <;> rfl

/-- C5, amended: a failure while extracting one malformed record is skipped
and the page processing continues with the remaining records; but a failure
of a search query itself aborts the entire pipeline — the outer handler
returns the empty candidate list with a null analysis even when candidates
had already been gathered; in every case `get_reference_papers_content`
returns normally (a total function) instead of raising, and a non-null
analysis is produced exactly when no query failed. -/
theorem C5_amended_failure_policy :
    (∀ (w : RawWork) (ws : List RawWork)
        (st : List PaperDetails × List String),
        w.details = none → processWorks st (w :: ws) = processWorks st ws) ∧
      (∀ (env : Env) (keywords : List String) (title sec : String),
        (searchRun env keywords title).failed = true →
          (getReferencePapersContent env keywords title sec).papers = [] ∧
          (getReferencePapersContent env keywords title sec).analysis =
            none) ∧
      (∀ (env : Env) (keywords : List String) (title sec : String),
        (searchRun env keywords title).failed = false →
          (getReferencePapersContent env keywords title sec).papers =
            (searchRun env keywords title).processed ∧
          (getReferencePapersContent env keywords title sec).analysis =
            some (getChatgptAnalysis env
              (searchRun env keywords title).processed title sec)) := by
  refine ⟨?_, ?_, ?_⟩
  · intro w ws st hw
    have hstep : workStep st w = st := by
      obtain ⟨pid, det⟩ := w
      cases det with
      | some d => simp at hw
      | none =>
        by_cases hfull : targetPaperCount ≤ st.1.length
        · simp [workStep, hfull]
        · cases pid with
          | none => simp [workStep, hfull]
          | some p =>
            simp only [workStep]
            rw [if_neg hfull]
            by_cases hcond : p ≠ "" ∧ p ∉ st.2
            · rw [if_pos hcond]
            · rw [if_neg hcond]
    show List.foldl workStep (workStep st w) ws = processWorks st ws
    rw [hstep]
    rfl
  · intro env keywords title sec hf
    simp [getReferencePapersContent, hf]
  · intro env keywords title sec hf
    simp [getReferencePapersContent, hf]

/-- Witness for C5's amended theorem: a malformed record (extraction
raises) in a page leaves the processing state untouched. -/
theorem C5_amended_failure_policy_witness :
    processWorks ([], []) [⟨some "id", (none : Option PaperDetails)⟩] =
      processWorks ([], []) [] :=
  C5_amended_failure_policy.1 _ _ _ rfl

/-- C8: in both section generation (`chatgpt.generate_section`) and
reference analysis (`get_chatgpt_analysis`), when the completion call
succeeds and the humanizing rewrite fails, the pre-rewrite completion
output is returned unchanged; the rewritten text is returned exactly when
the rewrite succeeds. -/
theorem C8_humanize_failure_nonfatal (env : Env) (prompt content hum : String)
    (papers : List PaperDetails) (title sec : String) (resp hum' : String) :
    (env.llm prompt = Except.ok content →
      (env.humanize content = Except.error () →
        generateSectionText env prompt = Except.ok content) ∧
      (env.humanize content = Except.ok hum →
        generateSectionText env prompt = Except.ok hum)) ∧
    (env.llm (analysisPrompt papers title sec) = Except.ok resp →
      (env.humanize resp = Except.error () →
        getChatgptAnalysis env papers title sec = resp) ∧
      (env.humanize resp = Except.ok hum' →
        getChatgptAnalysis env papers title sec = hum')) := by
  constructor
  · intro hllm
    constructor
    · intro hh
      simp [generateSectionText, hllm, hh]
    · intro hh
      simp [generateSectionText, hllm, hh]
  · intro hllm
    constructor
    · intro hh
      simp [getChatgptAnalysis, hllm, hh]
    · intro hh
      simp [getChatgptAnalysis, hllm, hh]

/-- Witness for C8: a concrete environment whose completion succeeds and
whose humanizer always raises returns the pre-rewrite completion output. -/
theorem C8_humanize_failure_nonfatal_witness :
    generateSectionText
      ⟨fun _ => Except.ok [], fun _ => Except.ok "content",
        fun _ => Except.error ()⟩ "prompt" = Except.ok "content" :=
  ((C8_humanize_failure_nonfatal
    ⟨fun _ => Except.ok [], fun _ => Except.ok "content",
      fun _ => Except.error ()⟩
    "prompt" "content" "h" [] "t" "s" "r" "h2").1 rfl).1 rfl

/-- C9, amended: for every sequence of `generate-named-section` operations
whose requested names are not `"references"` itself, the cumulative
`"references"` entry never receives two identical citation lines.  Part
one: each such call rewrites the references entry by `updateReferences`
applied to the previous block (the header when absent).  Part two:
`updateReferences` only ever appends pairwise-distinct citation lines —
the resulting block is the previous block followed by the appended lines,
with no line appended twice.  Part three: consecutive generations compose,
so the no-duplicate-append property extends across any such sequence, even
when the same candidate resurfaces.  (Requesting the name `"references"`
overwrites the block with arbitrary generated text — the counterexample.) -/
theorem C9_references_no_duplicate_lines :
    (∀ (st : PaperState) (sec : String) (papers : List PaperDetails)
        (content : String), sec ≠ "references" →
        recGet (generateSectionContent st sec papers content).sectionContent
            "references" =
          some (String.mk (updateReferences
            (((recGet st.sectionContent "references").getD refsHeader).toList)
            papers))) ∧
      (∀ (r : List Char) (papers : List PaperDetails),
        ∃ appended : List (List Char),
          updateReferences r papers =
            r ++ (appended.map (fun c => c ++ nl2)).flatten ∧
          appended.Nodup) ∧
      (∀ (r : List Char) (ps₁ ps₂ : List PaperDetails),
        updateReferences (updateReferences r ps₁) ps₂ =
          updateReferences r (ps₁ ++ ps₂)) := by
  refine ⟨?_, ?_, updateReferences_append⟩
  · intro st sec papers content hsec
    have hrefsec : "references" ≠ sec := fun e => hsec e.symm
    have h1 : recGet (recSet st.sectionContent sec content) "references" =
        recGet st.sectionContent "references" :=
      recGet_recSet_other _ _ _ _ hrefsec
    cases hr : recGet st.sectionContent "references" with
    | none =>
      cases hp : papers with
      | nil =>
        simp [generateSectionContent, h1, hr, recGet_recSet_same]
        rfl
      | cons p ps =>
        simp [generateSectionContent, h1, hr, recGet_recSet_same]
    | some r0 =>
      cases hp : papers with
      | nil =>
        simp [generateSectionContent, h1, hr]
        rfl
      | cons p ps =>
        simp [generateSectionContent, h1, hr, recGet_recSet_same]
  · intro r papers
    obtain ⟨new, hshape⟩ := updateReferencesA_shape papers r []
    have hfst := updateReferencesA_fst papers (r, [])
    have hnod := updateReferencesA_nodup papers (r, []) (by simp) (by simp)
    refine ⟨new, ?_, ?_⟩
    · rw [← hfst, hshape]
    · rw [hshape] at hnod
      simpa using hnod.1

/-- Witness for C9: generating a section named `"intro"` on a fresh paper
installs the references header, i.e. `updateReferences` of the header with
no candidates. -/
theorem C9_references_no_duplicate_lines_witness :
    recGet (generateSectionContent ⟨[], [], none, [], [], [], "in_progress"⟩
        "intro" [] "body").sectionContent "references" =
      some (String.mk (updateReferences refsHeader.toList [])) :=
  C9_references_no_duplicate_lines.1 _ "intro" [] "body" (by decide)

/-- C1, counterexample: starting a paper whose only required section is
`"intro"`, confirming `"intro"` and then confirming `"extra"` leaves
`confirmed_sections = ["intro", "extra"]`, a strict superset of
`required_sections = ["intro"]`, yet `generation_status` is
`"in_progress"` — refuting "completed whenever confirmed_sections is a
superset of required_sections" (the source compares the two as equal
sets, not by inclusion). -/
theorem C1_counterexample :
    startPaper ["intro"] [] "A" =
      some ⟨["intro"], [], some "intro", [], [], [], "in_progress"⟩ ∧
    (confirmSection (confirmSection
        ⟨["intro"], [], some "intro", [], [], [], "in_progress"⟩ "intro")
        "extra").confirmedSections = ["intro", "extra"] ∧
    (confirmSection (confirmSection
        ⟨["intro"], [], some "intro", [], [], [], "in_progress"⟩ "intro")
        "extra").requiredSections ⊆
      (confirmSection (confirmSection
        ⟨["intro"], [], some "intro", [], [], [], "in_progress"⟩ "intro")
        "extra").confirmedSections ∧
    (confirmSection (confirmSection
        ⟨["intro"], [], some "intro", [], [], [], "in_progress"⟩ "intro")
        "extra").generationStatus = "in_progress" := by
  decide

/-- C1, amended: `confirm-section` adds the section name with set semantics
(a second confirmation leaves the list unchanged), and after the update
`generation_status` is `"completed"` exactly when `confirmed_sections`
equals `required_sections` as sets (mutual inclusion — not mere
superset), and `"in_progress"` otherwise; the concrete three-section
scenarios of the claim satisfy this rule. -/
theorem C1_amended_confirm_section (st : PaperState) (s : String) :
    ((confirmSection st s).confirmedSections =
        if s ∈ st.confirmedSections then st.confirmedSections
        else st.confirmedSections ++ [s]) ∧
      s ∈ (confirmSection st s).confirmedSections ∧
      ((confirmSection st s).generationStatus = "completed" ↔
        ((confirmSection st s).confirmedSections ⊆ st.requiredSections ∧
          st.requiredSections ⊆ (confirmSection st s).confirmedSections)) ∧
      ((confirmSection st s).generationStatus = "completed" ∨
        (confirmSection st s).generationStatus = "in_progress") := by
  refine ⟨rfl, ?_, ?_, ?_⟩
  · by_cases h : s ∈ st.confirmedSections
    · simp [confirmSection, h]
    · simp [confirmSection, h]
  · by_cases hs : sameSet
        (if s ∈ st.confirmedSections then st.confirmedSections
         else st.confirmedSections ++ [s]) st.requiredSections = true
    · have := hs
      simp only [sameSet, decide_eq_true_eq] at this
      simp only [confirmSection, hs, if_true]
      constructor
      · intro _
        exact ⟨fun x hx => this.1 x hx, fun x hx => this.2 x hx⟩
      · intro _
        trivial
    · have := hs
      simp only [sameSet, decide_eq_true_eq] at this
      simp only [confirmSection, hs, if_false]
      constructor
      · intro h
        exact absurd h (by decide)
      · intro h
        exact absurd ⟨fun x hx => h.1 hx, fun x hx => h.2 hx⟩ this
  · by_cases hs : sameSet
        (if s ∈ st.confirmedSections then st.confirmedSections
         else st.confirmedSections ++ [s]) st.requiredSections = true
    · exact Or.inl (by simp [confirmSection, hs])
    · exact Or.inr (by simp [confirmSection, hs])

/-- C2, counterexample: the state reached by `start` on
`required_sections = ["intro"]` followed by one `generate-next` (which
exhausts the section list) has `generation_status = "completed"` while
`confirmed_sections = []` is not a superset of `["intro"]` — so the
claimed invariant "completed ⇔ confirmed ⊇ required after every
operation" fails on a reachable state. -/
theorem C2_counterexample :
    startPaper ["intro"] [] "A" =
      some ⟨["intro"], [], some "intro", [], [], [], "in_progress"⟩ ∧
    (generateNext ⟨["intro"], [], some "intro", [], [], [], "in_progress"⟩
        (fun _ => "t")).1.generationStatus = "completed" ∧
    (generateNext ⟨["intro"], [], some "intro", [], [], [], "in_progress"⟩
        (fun _ => "t")).1.confirmedSections = [] ∧
    (generateNext ⟨["intro"], [], some "intro", [], [], [], "in_progress"⟩
        (fun _ => "t")).1.requiredSections = ["intro"] := by
  decide

/-- C2, amended: the completed/confirmed correspondence is not an invariant
of every operation; what holds is: immediately after any `confirm-section`,
`generation_status = "completed"` iff the confirmed set equals the
required set (as sets), while `confirm-abstract` unconditionally sets the
status to `"abstract_confirmed"` (and `generate-next` can set
`"completed"` with no confirmations at all, as the counterexample
shows). -/
theorem C2_amended_status_correspondence (st : PaperState) (s : String) :
    ((confirmSection st s).generationStatus = "completed" ↔
        sameSet (confirmSection st s).confirmedSections
          st.requiredSections = true) ∧
      (confirmAbstract st).generationStatus = "abstract_confirmed" := by
  constructor
  · by_cases hs : sameSet
        (if s ∈ st.confirmedSections then st.confirmedSections
         else st.confirmedSections ++ [s]) st.requiredSections = true
    · simp [confirmSection, hs]
    · simp [confirmSection, hs]
  · rfl

/-- C3, counterexample: on a paper started with
`required_sections = ["intro"]`, requesting `generate-section` for the
arbitrary name `"weird"` stores `current_section = "weird"`, which is not
an element of `required_sections ++ custom_sections` — the claimed
invariant does not survive `generate-named-section`. -/
theorem C3_counterexample :
    startPaper ["intro"] [] "A" =
      some ⟨["intro"], [], some "intro", [], [], [], "in_progress"⟩ ∧
    (generateSectionContent
        ⟨["intro"], [], some "intro", [], [], [], "in_progress"⟩
        "weird" [] "body").currentSection = some "weird" ∧
    "weird" ∉
      (generateSectionContent
        ⟨["intro"], [], some "intro", [], [], [], "in_progress"⟩
        "weird" [] "body").requiredSections ++
      (generateSectionContent
        ⟨["intro"], [], some "intro", [], [], [], "in_progress"⟩
        "weird" [] "body").customSections := by
  decide

/-- C3, amended: `start` does set `current_section` to an element of
`required_sections ++ custom_sections` (the first required section if any,
else the first custom one), and `generate-next`, the edits and the
confirmations preserve membership (they leave `current_section` unchanged
or move it to a list element) — but `generate-named-section` sets
`current_section` to the requested name, which need not be an element, so
the invariant only holds for the other operations. -/
theorem C3_amended_current_membership :
    (∀ (required custom : List String) (a : String) (st : PaperState),
        startPaper required custom a = some st →
        ∃ c, st.currentSection = some c ∧ c ∈ required ++ custom) ∧
      (∀ (st : PaperState) (f : String → String),
        (generateNext st f).1.currentSection = st.currentSection ∨
        ∃ c, (generateNext st f).1.currentSection = some c ∧
          c ∈ st.requiredSections ++ st.customSections) ∧
      (∀ (st : PaperState) (sec : String) (papers : List PaperDetails)
          (content : String),
        (generateSectionContent st sec papers content).currentSection =
          some sec) ∧
      (∀ (st : PaperState) (ts prev instr ed : String),
        (editAbstract st ts prev instr ed).currentSection =
          st.currentSection) ∧
      (∀ (st : PaperState) (ts nm cur instr improved : String),
        (editSection st ts nm cur instr improved).currentSection =
          st.currentSection) ∧
      (∀ (st : PaperState) (s : String),
        (confirmSection st s).currentSection = st.currentSection) ∧
      (∀ st : PaperState,
        (confirmAbstract st).currentSection = st.currentSection) := by
  refine ⟨?_, ?_, fun _ _ _ _ => rfl, fun _ _ _ _ _ => rfl,
    fun _ _ _ _ _ _ => rfl, fun _ _ => rfl, fun _ => rfl⟩
  · intro required custom a st h
    cases required with
    | nil =>
      cases custom with
      | nil => simp [startPaper] at h
      | cons f c =>
        simp only [startPaper, Option.some.injEq] at h
        subst h
        exact ⟨f, rfl, by simp⟩
    | cons f r =>
      simp only [startPaper, Option.some.injEq] at h
      subst h
      exact ⟨f, rfl, by simp⟩
  · intro st f
    simp only [generateNext]
    split
    · exact Or.inl rfl
    · rename_i next hn
      by_cases hne : next = ""
      · rw [if_pos hne]
        exact Or.inl rfl
      · rw [if_neg hne]
        exact Or.inr ⟨next, rfl, List.getElem?_mem hn⟩

/-- Witness for C3's amended theorem: starting with
`required_sections = ["intro"]` yields a `current_section` that is an
element of the section lists. -/
theorem C3_amended_current_membership_witness :
    ∃ c, (⟨["intro"], [], some "intro", [], [], [], "in_progress"⟩ :
        PaperState).currentSection = some c ∧
      c ∈ ["intro"] ++ ([] : List String) :=
  C3_amended_current_membership.1 ["intro"] [] "A" _ rfl

/-- C4, counterexample: on a paper whose SectionRecord holds both
`"abstract"` and `"intro"` (reached by `start` then `generate-next`),
`edit-abstract` replaces the whole record with the single edited abstract
entry — the `"intro"` entry is lost, contradicting "leaving every other
SectionRecord key and its content unchanged". -/
theorem C4_counterexample :
    startPaper ["abstract", "intro"] [] "A" =
      some ⟨["abstract", "intro"], [], some "abstract", [("abstract", "A")],
        [], [], "in_progress"⟩ ∧
    recGet (generateNext
        ⟨["abstract", "intro"], [], some "abstract", [("abstract", "A")],
          [], [], "in_progress"⟩
        (fun _ => "I")).1.sectionContent "intro" = some "I" ∧
    (editAbstract (generateNext
        ⟨["abstract", "intro"], [], some "abstract", [("abstract", "A")],
          [], [], "in_progress"⟩ (fun _ => "I")).1
        "t" "A" "fix" "A2").sectionContent = [("abstract", "A2")] ∧
    recGet (editAbstract (generateNext
        ⟨["abstract", "intro"], [], some "abstract", [("abstract", "A")],
          [], [], "in_progress"⟩ (fun _ => "I")).1
        "t" "A" "fix" "A2").sectionContent "intro" = none := by
  decide

/-- C4, amended: `generate-named-section` overwrites only the requested
section entry plus the cumulative `"references"` entry, and `edit-section`
(for any named section, the abstract included) overwrites only the edited
entry, each appending one EditEvent — but the dedicated `edit-abstract`
operation replaces the entire SectionRecord with the singleton
`{"abstract": result}`, discarding every other key. -/
theorem C4_amended_frame :
    (∀ (st : PaperState) (sec : String) (papers : List PaperDetails)
        (content k : String), k ≠ sec → k ≠ "references" →
        recGet (generateSectionContent st sec papers content).sectionContent
          k = recGet st.sectionContent k) ∧
      (∀ (st : PaperState) (sec : String) (papers : List PaperDetails)
          (content : String), sec ≠ "references" →
        recGet (generateSectionContent st sec papers content).sectionContent
          sec = some content) ∧
      (∀ (st : PaperState) (ts nm cur instr improved k : String), k ≠ nm →
        recGet (editSection st ts nm cur instr improved).sectionContent k =
          recGet st.sectionContent k) ∧
      (∀ (st : PaperState) (ts nm cur instr improved : String),
        recGet (editSection st ts nm cur instr improved).sectionContent nm =
            some improved ∧
          (editSection st ts nm cur instr improved).editHistory =
            st.editHistory ++ [⟨ts, instr, cur, improved⟩]) ∧
      (∀ (st : PaperState) (ts prev instr ed : String),
        (editAbstract st ts prev instr ed).sectionContent =
            [("abstract", ed)] ∧
          (editAbstract st ts prev instr ed).editHistory =
            st.editHistory ++ [⟨ts, instr, prev, ed⟩]) := by
  refine ⟨?_, ?_, ?_, fun st ts nm cur instr improved =>
    ⟨recGet_recSet_same _ _ _, rfl⟩, fun _ _ _ _ _ => ⟨rfl, rfl⟩⟩
  · intro st sec papers content k hks hkr
    simp only [generateSectionContent]
    split_ifs <;>
      simp [recGet_recSet_other _ _ _ _ hks, recGet_recSet_other _ _ _ _ hkr]
  · intro st sec papers content hsr
    simp only [generateSectionContent]
    split_ifs <;>
      simp [recGet_recSet_other _ _ _ _ hsr, recGet_recSet_same]
  · intro st ts nm cur instr improved k hk
    exact recGet_recSet_other _ _ _ _ hk

/-- Witness for C4's amended theorem: generating `"intro"` on a concrete
paper leaves an unrelated `"conclusion"` entry untouched. -/
theorem C4_amended_frame_witness :
    recGet (generateSectionContent
        ⟨["intro"], [], some "intro", [("conclusion", "C")], [], [],
          "in_progress"⟩ "intro" [] "body").sectionContent "conclusion" =
      recGet [("conclusion", "C")] "conclusion" :=
  C4_amended_frame.1
    ⟨["intro"], [], some "intro", [("conclusion", "C")], [], [],
      "in_progress"⟩ "intro" [] "body" "conclusion"
    (by decide) (by decide)

/-- C9, counterexample: `generate-named-section` accepts the section name
`"references"` itself; the update then stores the generated text verbatim
as the cumulative references entry (`current_content[request.section] =
section_content`).  Choosing generated text that repeats the citation line
of one (authors, year, title) triple twice leaves the references entry
holding two identical citation lines — refuting the claim, which
quantifies over every sequence of generate-named-section operations. -/
theorem C9_counterexample :
    recGet (generateSectionContent
        ⟨["intro"], [], some "intro", [], [], [], "in_progress"⟩
        "references" []
        (String.mk (citationChars ⟨"T1", "", "d1", "2020", ["Au"], [], 0, ""⟩
          ++ nl2 ++ citationChars ⟨"T1", "", "d1", "2020", ["Au"], [], 0, ""⟩
          ++ nl2))).sectionContent "references" =
      some (String.mk
        (citationChars ⟨"T1", "", "d1", "2020", ["Au"], [], 0, ""⟩
          ++ nl2 ++ citationChars ⟨"T1", "", "d1", "2020", ["Au"], [], 0, ""⟩
          ++ nl2)) ∧
    (generateSectionContent
        ⟨["intro"], [], some "intro", [], [], [], "in_progress"⟩
        "references" []
        (String.mk (citationChars ⟨"T1", "", "d1", "2020", ["Au"], [], 0, ""⟩
          ++ nl2 ++ citationChars ⟨"T1", "", "d1", "2020", ["Au"], [], 0, ""⟩
          ++ nl2))).currentSection = some "references" := by
  decide

/-- C10, counterexample: the `/start` endpoint performs no per-entry
validation, so a paper with the empty string as its only required section
name is constructible; after `generate-named-section` stores the unknown
name `"weird"` as `current_section`, `generate-next` finds the first
section `""`, and the source's falsy guard `if not next_section:` marks
the paper completed instead of generating that section — refuting "does
not fail or complete the paper". -/
theorem C10_counterexample :
    startPaper [""] [] "A" =
      some ⟨[""], [], some "", [], [], [], "in_progress"⟩ ∧
    (generateSectionContent ⟨[""], [], some "", [], [], [], "in_progress"⟩
        "weird" [] "b").currentSection = some "weird" ∧
    "weird" ∉
      (generateSectionContent ⟨[""], [], some "", [], [], [], "in_progress"⟩
        "weird" [] "b").requiredSections ++
      (generateSectionContent ⟨[""], [], some "", [], [], [], "in_progress"⟩
        "weird" [] "b").customSections ∧
    (generateNext
        (generateSectionContent ⟨[""], [], some "", [], [], [], "in_progress"⟩
          "weird" [] "b") (fun _ => "t")).2 = GenNextOutcome.completed ∧
    (generateNext
        (generateSectionContent ⟨[""], [], some "", [], [], [], "in_progress"⟩
          "weird" [] "b") (fun _ => "t")).1.generationStatus = "completed" := by
  decide

/-- C10, amended: when `current_section` is set but is not an element of
`required_sections ++ custom_sections` and that concatenation is
non-empty, `generate-next` treats the current index as `-1` and inspects
the first section of the concatenated list: provided that first name is
non-empty, it generates it, stores its content, sets `current_section` to
it and leaves `generation_status` unchanged; when the first name is the
falsy empty string, the `if not next_section:` guard instead marks the
paper completed. -/
theorem C10_amended_generate_next_unknown_current (st : PaperState)
    (f : String → String) (c first : String) (rest : List String)
    (hc : st.currentSection = some c)
    (hnot : c ∉ st.requiredSections ++ st.customSections)
    (hall : st.requiredSections ++ st.customSections = first :: rest) :
    (first ≠ "" →
      (generateNext st f).1.currentSection = some first ∧
        (generateNext st f).1.generationStatus = st.generationStatus ∧
        (generateNext st f).1.sectionContent =
          recSet st.sectionContent first (f first) ∧
        (generateNext st f).2 =
          GenNextOutcome.generated first (f first) ((first :: rest)[1]?)) ∧
    (first = "" →
      (generateNext st f).2 = GenNextOutcome.completed ∧
        (generateNext st f).1.generationStatus = "completed") := by
  have hnot' : c ∉ (first :: rest) := hall ▸ hnot
  constructor
  · intro hne
    simp only [generateNext, hc, hall, hnot', if_false, ite_false,
      List.getElem?_cons_zero, hne]
    simp [hne]
  · intro he
    subst he
    simp only [generateNext, hc, hall]
    rw [if_neg hnot']
    simp [List.getElem?_cons_zero]

/-- Witness for C10's amended theorem: a paper with
`required_sections = ["intro"]` whose `current_section` was set to the
unknown name `"weird"` generates `"intro"`. -/
theorem C10_amended_generate_next_unknown_current_witness :
    (generateNext ⟨["intro"], [], some "weird", [], [], [], "in_progress"⟩
        (fun _ => "X")).1.currentSection = some "intro" ∧
      (generateNext ⟨["intro"], [], some "weird", [], [], [], "in_progress"⟩
        (fun _ => "X")).1.generationStatus = "in_progress" ∧
      (generateNext ⟨["intro"], [], some "weird", [], [], [], "in_progress"⟩
        (fun _ => "X")).1.sectionContent = recSet [] "intro" "X" ∧
      (generateNext ⟨["intro"], [], some "weird", [], [], [], "in_progress"⟩
        (fun _ => "X")).2 =
        GenNextOutcome.generated "intro" "X" (["intro"][1]?) :=
  (C10_amended_generate_next_unknown_current
    ⟨["intro"], [], some "weird", [], [], [], "in_progress"⟩
    (fun _ => "X") "weird" "intro" [] rfl (by decide) rfl).1 (by decide)

end Aires
